import Mathlib

/-!
Shallow embedding of `src/collection.py` (json2hmc): the field-normalization
pipeline that converts Hearthstone card JSON records into rows of the
Hearthstone Master Collection (HMC) spreadsheet.

Modelling conventions:
* Python 2 `unicode` strings are `String` / `List Char` (unicode scalars).
* A JSON card dictionary is a structure with `Option` fields; `none` models an
  absent key, and a key access that can raise `KeyError` is an explicit match.
* Python exceptions are `Except` errors; the bare `except` block of `parse`
  (print the offending card, re-raise) is modelled by the error value carrying
  the card dictionary at the moment of failure.
* `parse` mutates its argument (`card[u'set'] = u'HOF'`); it is therefore
  embedded as a function returning the result together with the final state of
  the card dictionary.
-/

/-- Whitespace of the Python 2 regex class `\s` for a non-unicode pattern
(the module compiles its patterns without `re.UNICODE`): exactly space, tab,
newline, carriage return, vertical tab and form feed. -/
def isPySpace (c : Char) : Bool :=
  c == ' ' || c == '\t' || c == '\n' || c == '\r' || c == '\x0b' || c == '\x0c'

/-- Whitespace stripped by Python 2 `unicode.strip()` (`Py_UNICODE_ISSPACE`). -/
def isUniSpace (c : Char) : Bool :=
  [' ', '\t', '\n', '\x0b', '\x0c', '\r',
   '\x1c', '\x1d', '\x1e', '\x1f', '\x85', ' ',
   ' ', '᠎', ' ', ' ', ' ', ' ', ' ',
   ' ', ' ', ' ', ' ', ' ', ' ',
   ' ', ' ', ' ', ' ', '　'].contains c

/-- Does `l` start with the literal pattern `pat`? -/
def begWith : List Char → List Char → Bool
  | [], _ => true
  | _ :: _, [] => false
  | p :: ps, c :: cs => c == p && begWith ps cs

/-- Does the literal pattern `pat` occur anywhere in `l`? -/
def hasSub (pat : List Char) : List Char → Bool
  | [] => begWith pat []
  | c :: t => begWith pat (c :: t) || hasSub pat t

/-- The literal `</b>` of the sentence-break regex (collection.py line 80). -/
def tagB : List Char := ['<', '/', 'b', '>']

/-- First three characters of `tagB`; a `</b>` occurrence that straddles a
list boundary uses at most these characters from the right-hand side. -/
def tagB3 : List Char := ['<', '/', 'b']

/-- Inner backtracking loop of the matcher for `\s*\n\s*([^a-z])`: after the
`\n`, the second greedy `\s*` tries the lengths `j, j-1, ..., 0` in that
order, each followed by one capture character outside `a-z`.  `l2` is the text
after the newline; returns the capture and the `\s*` length used. -/
def innerJ (l2 : List Char) : Nat → Option (Char × Nat)
  | 0 =>
    match l2[(0 : Nat)]? with
    | some d => if d.isLower then none else some (d, 0)
    | none => none
  | j + 1 =>
    match l2[(j + 1 : Nat)]? with
    | some d => if d.isLower then innerJ l2 j else some (d, j + 1)
    | none => innerJ l2 j

/-- Outer backtracking loop of the matcher for `\s*\n\s*([^a-z])`: the first
greedy `\s*` tries the lengths `i, i-1, ..., 0` in that order; each candidate
requires `l[i] = '\n'` and a match of the inner loop on the rest.  Returns
the capture and the total number of characters consumed. -/
def outerI (l : List Char) : Nat → Option (Char × Nat)
  | 0 =>
    if l[(0 : Nat)]? = some '\n' then
      match innerJ (l.drop 1) ((l.drop 1).takeWhile isPySpace).length with
      | some (d, j) => some (d, 0 + 1 + j + 1)
      | none => none
    else none
  | i + 1 =>
    if l[(i + 1 : Nat)]? = some '\n' then
      match innerJ (l.drop (i + 2)) ((l.drop (i + 2)).takeWhile isPySpace).length with
      | some (d, j) => some (d, i + 1 + 1 + j + 1)
      | none => outerI l i
    else outerI l i

/-- Backtracking matcher for the part `\s*\n\s*([^a-z])` of the regex
`r'</b>\s*\n\s*([^a-z])'` (collection.py line 80), applied at the position
just after a literal `</b>`.  Both `\s*` are greedy: the engine tries the
longest whitespace prefix first (at most the maximal whitespace run), and for
each candidate requires a `\n`, then again a greedy `\s*`, then one
character outside `a-z` (the capture).  Returns the captured character and
the number of characters consumed. -/
def tryMatch (l : List Char) : Option (Char × Nat) :=
  outerI l (l.takeWhile isPySpace).length

/-- Fuelled scanner for `re.sub(r'</b>\s*\n\s*([^a-z])', r'</b>. \1', s)`
(collection.py line 80).  Scans left to right; at a match, emits the
replacement `</b>. ` plus the captured character and resumes after the match.
The fuel only serves structural recursion; `sub1` supplies `l.length`. -/
def sub1F : Nat → List Char → List Char
  | _, [] => []
  | 0, l => l
  | fuel + 1, c :: t =>
    if begWith tagB (c :: t) then
      match tryMatch ((c :: t).drop 4) with
      | some (d, n) => tagB ++ ['.', ' '] ++ d :: sub1F fuel ((c :: t).drop (4 + n))
      | none => c :: sub1F fuel t
    else c :: sub1F fuel t

def sub1 (l : List Char) : List Char := sub1F l.length l

/-- Fuelled scanner for `re.sub(r'\s*\n\s*', ' ', s)` (collection.py line 83).
At each position, the leftmost greedy match of `\s*\n\s*` consumes exactly the
maximal whitespace run starting there, provided that run contains a newline;
the run is replaced by one space. -/
def sub2F : Nat → List Char → List Char
  | _, [] => []
  | 0, l => l
  | fuel + 1, c :: t =>
    if '\n' ∈ (c :: t).takeWhile isPySpace then
      ' ' :: sub2F fuel ((c :: t).drop ((c :: t).takeWhile isPySpace).length)
    else c :: sub2F fuel t

def sub2 (l : List Char) : List Char := sub2F l.length l

/-- Fuelled scanner for Python `unicode.replace(pat, rep)` with the non-empty
literal pattern `p :: ps`: non-overlapping occurrences are replaced from left
to right, scanning resuming after each replacement
(collection.py lines 86-90). -/
def replF (p : Char) (ps rep : List Char) : Nat → List Char → List Char
  | _, [] => []
  | 0, l => l
  | fuel + 1, c :: t =>
    if begWith (p :: ps) (c :: t) then rep ++ replF p ps rep fuel (t.drop ps.length)
    else c :: replF p ps rep fuel t

def repl (p : Char) (ps rep l : List Char) : List Char := replF p ps rep l.length l

/-- Fuelled scanner for `re.sub(r'\$(\d+)', r'\1', s)` and the analogous `#`
rule (collection.py lines 93-95): a prefix character immediately followed by
digits is deleted, the digits are kept, and scanning resumes after them. -/
def subNumF (p : Char) : Nat → List Char → List Char
  | _, [] => []
  | 0, l => l
  | _ + 1, [c] => [c]
  | fuel + 1, c1 :: c2 :: t =>
    if c1 == p && c2.isDigit then
      (c2 :: t).takeWhile Char.isDigit ++
        subNumF p fuel ((c2 :: t).drop ((c2 :: t).takeWhile Char.isDigit).length)
    else c1 :: subNumF p fuel (c2 :: t)

def subNum (p : Char) (l : List Char) : List Char := subNumF p l.length l

/-- Drop the longest suffix of `l` whose characters all satisfy `p`. -/
def dropEndWhile (p : Char → Bool) (l : List Char) : List Char :=
  (l.reverse.dropWhile p).reverse

/-- Python 2 `unicode.strip()` (collection.py line 98). -/
def stripL (l : List Char) : List Char :=
  dropEndWhile isUniSpace (l.dropWhile isUniSpace)

/-- Trailing-period heuristic (collection.py lines 100-102): if the text
contains a period and its last character is none of `.`, `)`, `'`, `"`,
append a period.  (For empty text the `'.' in ustring` test short-circuits the
`ustring[-1]` access.) -/
def periodStep (l : List Char) : List Char :=
  match l.getLast? with
  | some c => if '.' ∈ l ∧ c ∉ ['.', ')', '\x27', '"'] then l ++ ['.'] else l
  | none => l

/-- The body of `normalize_text` (collection.py lines 70-104) over character
lists, with the five stages in source order: sentence-break insertion, newline
collapsing, literal replacements, spell-power/healing prefix removal, strip,
trailing period. -/
def normTextL (l : List Char) : List Char :=
  periodStep (stripL
    (subNum '#' (subNum '$'
      (repl '[' ['x', ']'] []
        (repl '<' ['/', 'i', '>'] []
          (repl '<' ['i', '>'] []
            (repl '<' ['/', 'b', '>'] []
              (repl '<' ['b', '>'] []
                (repl '’' [] ['\x27']
                  (repl ' ' [] [' ']
                    (sub2 (sub1 l))))))))))))

/-- `normalize_text` (collection.py line 70). -/
def normalize_text (s : String) : String := ⟨normTextL s.data⟩

/-! ## Lookup tables (collection.py lines 22-45) -/

/-- `SETS` (collection.py lines 22-39): JSON set identifier to
(HMC display name, HMC `#Collection` index). -/
def SETS : List (String × String × Int) :=
  [("HOF", ("Promo", -1)),
   ("CORE", ("Basic", 0)),
   ("EXPERT1", ("Classic", 1)),
   ("NAXX", ("Naxx", 2)),
   ("GVG", ("GvG", 3)),
   ("BRM", ("Blackrock", 4)),
   ("TGT", ("TGT", 5)),
   ("LOE", ("LoE", 6)),
   ("OG", ("TOG", 7)),
   ("KARA", ("Kara", 8)),
   ("GANGS", ("MSG", 9)),
   ("UNGORO", ("Un\x27Goro", 10)),
   ("ICECROWN", ("KFT", 11)),
   ("LOOTAPALOOZA", ("KnC", 12)),
   ("GILNEAS", ("Woods", 13)),
   ("BOOMSDAY", ("Boom", 14))]

/-- `RARITY` ordering for the `#Rarity` column (collection.py line 42). -/
def RARITY : List String := ["Basic", "Common", "Rare", "Epic", "Legendary"]

/-- `CLASSES` ordering for the `#Class` column (collection.py line 43). -/
def CLASSES : List String :=
  ["", "Druid", "Hunter", "Mage", "Paladin", "Priest", "Rogue", "Shaman",
   "Warlock", "Warrior", "Neutral"]

/-- `STANDARD` (collection.py line 45): display set names in Standard format. -/
def STANDARD : List String := ["Un\x27Goro", "KFT", "KnC", "Woods", "Boom"]

/-- `KEYWORDS` of `normalize_keywords` (collection.py lines 144-169): JSON tag
to (HMC keyword label, include-when-only-referenced flag). -/
def KEYWORDS : List (String × String × Bool) :=
  [("ADAPT", ("Adapt", true)),
   ("AURA", ("Aura", false)),
   ("BATTLECRY", ("Battlecry", false)),
   ("CANT_ATTACK", ("Can\x27t Attack", false)),
   ("CHARGE", ("Charge", false)),
   ("CHOOSE_ONE", ("Choose One", false)),
   ("COMBO", ("Combo", false)),
   ("DEATHRATTLE", ("Deathrattle", false)),
   ("DISCOVER", ("Discover", true)),
   ("DIVINE_SHIELD", ("Divine Shield", false)),
   ("ECHO", ("Echo", false)),
   ("FREEZE", ("Freeze", true)),
   ("INSPIRE", ("Inspire", false)),
   ("LIFESTEAL", ("Lifesteal", false)),
   ("MODULAR", ("Magnetic", false)),
   ("OVERLOAD", ("Overload", false)),
   ("POISONOUS", ("Poisonous", false)),
   ("RECRUIT", ("Recruit", true)),
   ("RUSH", ("Rush", false)),
   ("SECRET", ("Secret", false)),
   ("SPELLPOWER", ("Spell Damage", true)),
   ("STEALTH", ("Stealth", false)),
   ("TAUNT", ("Taunt", true)),
   ("WINDFURY", ("Windfury", false))]

/-- The `gangs` table of `normalize_type` (collection.py line 129). -/
def gangs : List (String × String) :=
  [("GRIMY_GOONS", "Goon"), ("KABAL", "Kabal"), ("JADE_LOTUS", "Lotus")]

/-! ## Data model -/

/-- A raw JSON card record (Source Record).  `none` models an absent key. -/
structure Card where
  cost : Option Int := none
  name : Option String := none
  rarity : Option String := none
  set : Option String := none
  cardClass : Option String := none
  type : Option String := none
  race : Option String := none
  mechanics : Option (List String) := none
  referencedTags : Option (List String) := none
  multiClassGroup : Option String := none
  attack : Option Int := none
  health : Option Int := none
  collectionText : Option String := none
  text : Option String := none
  deriving DecidableEq

/-- One output row of `parse` (Normalized Record).  Field names follow the
HMC column names: `Ctype` is the "Type" column, `SubType` is "Sub-Type",
`CardText` is "Card Text", and `nRarity`, `nCollection`, `nClass` are
"#Rarity", "#Collection", "#Class". -/
structure Normalized where
  Mana : Int
  Name : String
  Rarity : String
  Collection : String
  Format : String
  Class : String
  Ctype : String
  SubType : Option String
  ATK : Option Int
  HP : Option Int
  CardText : Option String
  Keywords : Option String
  nRarity : Nat
  nCollection : Int
  nClass : Nat
  deriving DecidableEq

/-- Exceptions the embedded pipeline can raise: a `KeyError` on a plain
dictionary access, a `KeyError` on a lookup-table access, a `ValueError` from
`list.index`, or a `UnicodeEncodeError` from `.encode('ascii')`. -/
inductive PErr where
  | missingField (f : String)
  | setLookup (s : String)
  | rarityLookup (s : String)
  | classLookup (s : String)
  | gangLookup (s : String)
  | encodeFail (s : String)
  deriving DecidableEq

/-- Python 2 `unicode.capitalize()`: first character uppercased, the rest
lowercased (ASCII case mapping suffices for the fields this program reads). -/
def capL : List Char → List Char
  | [] => []
  | c :: t => c.toUpper :: t.map Char.toLower

def capitalize (s : String) : String := ⟨capL s.data⟩

/-- Python `list.index`, made total: zero-based index of the first occurrence,
`none` in place of `ValueError`. -/
def indexIn (x : String) : List String → Option Nat
  | [] => none
  | a :: t => if a = x then some 0 else (indexIn x t).map (· + 1)

/-! ## normalize_type (collection.py lines 110-137) -/

/-- Step of `normalize_type` line 120-121: `card['mechanics'] == ['QUEST']`
overrides the type with "Quest". -/
def questType (card : Card) (t : String) : String :=
  match card.mechanics with
  | some m => if m = ["QUEST"] then "Quest" else t
  | none => t

/-- Step of `normalize_type` line 122-123: `card['mechanics'] == ['SECRET']`
overrides the subtype with "Secret". -/
def secretSub (card : Card) (s : Option String) : Option String :=
  match card.mechanics with
  | some m => if m = ["SECRET"] then some "Secret" else s
  | none => s

/-- Step of `normalize_type` lines 124-126: a "Hero" in set ICECROWN becomes
"Death Knight".  The conjunction `ctype == "Hero" and card[u'set'] == ...`
short-circuits, so `card[u'set']` (a possible `KeyError`) is only read when
the type is "Hero". -/
def dkType (card : Card) (t : String) : Except PErr String :=
  if t = "Hero" then
    match card.set with
    | none => Except.error (PErr.missingField "set")
    | some s => Except.ok (if s = "ICECROWN" then "Death Knight" else t)
  else Except.ok t

/-- Step of `normalize_type` lines 127-132: map `multiClassGroup` through
`gangs`, but never overwrite an existing subtype. -/
def groupSub (card : Card) (s : Option String) : Except PErr (Option String) :=
  match card.multiClassGroup with
  | some g =>
    if s = none then
      match List.lookup g gangs with
      | some lbl => Except.ok (some lbl)
      | none => Except.error (PErr.gangLookup g)
    else Except.ok s
  | none => Except.ok s

/-- Step of `normalize_type` lines 134-135: rename subtype "Mechanical" to
"Mech". -/
def mechSub (s : Option String) : Option String :=
  if s = some "Mechanical" then some "Mech" else s

/-- `normalize_type` (collection.py lines 110-137): display type and subtype
from the capitalized `type` field, the `race` field, the quest/secret
mechanics overrides, the Death Knight special case, the multi-class groups
and the Mech rewrite, in source order. -/
def normalize_type (card : Card) : Except PErr (String × Option String) :=
  match card.type with
  | none => Except.error (PErr.missingField "type")
  | some ty =>
    match dkType card (questType card (capitalize ty)) with
    | Except.error e => Except.error e
    | Except.ok ctype =>
      match groupSub card (secretSub card (card.race.map capitalize)) with
      | Except.error e => Except.error e
      | Except.ok subtype => Except.ok (ctype, mechSub subtype)

/-! ## normalize_keywords (collection.py lines 141-189) -/

/-- Strict lexicographic comparison of character lists by code point: the
order Python 2 `sorted` uses on unicode strings. -/
def listLtB : List Char → List Char → Bool
  | [], [] => false
  | [], _ :: _ => true
  | _ :: _, [] => false
  | a :: as, b :: bs => if a < b then true else if b < a then false else listLtB as bs

/-- Strict string comparison (Python `<` on unicode strings). -/
def strLtB (a b : String) : Bool := listLtB a.data b.data

/-- Reflexive string comparison used as the sort order: `a ≤ b` iff not
`b < a`. -/
def strLeB (a b : String) : Bool := !(listLtB b.data a.data)

/-- `normalize_keywords` (collection.py lines 141-189): labels of `mechanics`
tags found in `KEYWORDS`, plus labels of `referencedTags` tags whose registry
flag is true, as a set (`dedup`), returned sorted by the code-point order of
Python `sorted` (`sorted(keywords)`). -/
def normalize_keywords (card : Card) : List String :=
  List.insertionSort (fun a b => strLeB a b)
    ((((card.mechanics.getD []).filterMap fun m =>
        (List.lookup m KEYWORDS).map Prod.fst) ++
      ((card.referencedTags.getD []).filterMap fun t =>
        match List.lookup t KEYWORDS with
        | some (lbl, true) => some lbl
        | _ => none)).dedup)

/-! ## parse (collection.py lines 194-238) -/

/-- Choice and normalization of the "Card Text" column (collection.py lines
221-224): prefer `collectionText`, else `text`, else no column; the normalized
text is encoded to ASCII, and a character above U+007F raises. -/
def cardTextOf (card : Card) : Except PErr (Option String) :=
  match card.collectionText with
  | some t =>
    if (normTextL t.data).all (fun c => c.toNat < 128) then
      Except.ok (some (normalize_text t))
    else Except.error (PErr.encodeFail (normalize_text t))
  | none =>
    match card.text with
    | some t =>
      if (normTextL t.data).all (fun c => c.toNat < 128) then
        Except.ok (some (normalize_text t))
      else Except.error (PErr.encodeFail (normalize_text t))
    | none => Except.ok none

/-- Lines 201-202 of `parse`: the legacy rarity "Free" becomes "Basic". -/
def remapRarity (r : String) : String := if r = "Free" then "Basic" else r

/-- Lines 203-205 of `parse`: a card without a `set` key gets `set = "HOF"`
written into it (this mutates the input dictionary). -/
def cardDefaulted (c : Card) : Card :=
  if c.set = none then { c with set := some "HOF" } else c

/-- `String.intercalate "; "` models `"; ".join` (collection.py line 229). -/
def joinSemi (l : List String) : String := String.intercalate "; " l

/-- Continuation of `parse` after the early field reads and the set
defaulting, operating on the (possibly mutated) card.  The `#Collection`
column repeats the `SETS[card[u'set']]` lookup of the Collection column
(lines 206 and 231); the key is unchanged in between, so the single match
binds both components.  Errors carry the card printed by the bare `except`
handler. -/
def parseRest (card : Card) (cost : Int) (name rarity : String) :
    Except (PErr × Card) Normalized :=
  match card.set with
  | none => Except.error (PErr.missingField "set", card)
  | some setId =>
    match List.lookup setId SETS with
    | none => Except.error (PErr.setLookup setId, card)
    | some (collName, collIdx) =>
      match card.cardClass with
      | none => Except.error (PErr.missingField "cardClass", card)
      | some cls0 =>
        match normalize_type card with
        | Except.error e => Except.error (e, card)
        | Except.ok (ctype, subtype) =>
          match cardTextOf card with
          | Except.error e => Except.error (e, card)
          | Except.ok textOpt =>
            match indexIn rarity RARITY with
            | none => Except.error (PErr.rarityLookup rarity, card)
            | some ri =>
              match indexIn (capitalize cls0) CLASSES with
              | none => Except.error (PErr.classLookup (capitalize cls0), card)
              | some ci =>
                Except.ok
                  { Mana := cost
                    Name := name
                    Rarity := rarity
                    Collection := collName
                    Format := if collName ∈ STANDARD then "Standard" else "Wild"
                    Class := capitalize cls0
                    Ctype := ctype
                    SubType :=
                      match subtype with
                      | some s => if s = "" then none else some s
                      | none => none
                    ATK := card.attack
                    HP := card.health
                    CardText := textOpt
                    Keywords :=
                      if normalize_keywords card = [] then none
                      else some (joinSemi (normalize_keywords card))
                    nRarity := ri
                    nCollection := collIdx
                    nClass := ci }

/-- `parse` (collection.py lines 194-238): reads `cost`, `name`, `rarity`
(each a possible `KeyError` before any mutation), remaps the rarity, defaults
the `set` field in place, and continues with `parseRest`.  Returns the result
together with the final state of the card dictionary. -/
def parse (card0 : Card) : Except (PErr × Card) Normalized × Card :=
  match card0.cost with
  | none => (Except.error (PErr.missingField "cost", card0), card0)
  | some cost =>
    match card0.name with
    | none => (Except.error (PErr.missingField "name", card0), card0)
    | some name =>
      match card0.rarity with
      | none => (Except.error (PErr.missingField "rarity", card0), card0)
      | some rarity0 =>
        (parseRest (cardDefaulted card0) cost name (remapRarity (capitalize rarity0)),
         cardDefaulted card0)

/-- The set identifier `parse` looks up: the card's own, or the fallback. -/
def setIdOf (c : Card) : String :=
  match c.set with
  | some s => s
  | none => "HOF"

/-- Does `l` contain the character `p` immediately followed by a digit
(i.e. would `re.sub(r'p(\d+)', r'\1', l)` fire somewhere)? -/
def pairedNum (p : Char) : List Char → Bool
  | [] => false
  | [_] => false
  | a :: b :: t => (a == p && b.isDigit) || pairedNum p (b :: t)

/-- A character list on which every rewriting stage of `normalize_text` is
inert: no newline, no literal markup or special-character token, and no
spell-power/healing prefix.  The output of one `normalize_text` pass
satisfies this for every input in which deleting a token does not create a
new token. -/
def cleanText (t : List Char) : Prop :=
  '\n' ∉ t ∧
  hasSub [' '] t = false ∧
  hasSub ['’'] t = false ∧
  hasSub ['<', 'b', '>'] t = false ∧
  hasSub ['<', '/', 'b', '>'] t = false ∧
  hasSub ['<', 'i', '>'] t = false ∧
  hasSub ['<', '/', 'i', '>'] t = false ∧
  hasSub ['[', 'x', ']'] t = false ∧
  pairedNum '$' t = false ∧
  pairedNum '#' t = false

instance (t : List Char) : Decidable (cleanText t) := by
  unfold cleanText; infer_instance

/-! ## Concrete records used by the verification -/

/-- A plain collectible minion record. -/
def cardOk : Card :=
  { cost := some 2, name := some "Bloodfen Raptor", rarity := some "COMMON",
    set := some "CORE", cardClass := some "NEUTRAL", type := some "MINION",
    race := some "BEAST", attack := some 3, health := some 2 }

/-- The row `parse` produces for `cardOk`. -/
def rowOk : Normalized :=
  { Mana := 2, Name := "Bloodfen Raptor", Rarity := "Common",
    Collection := "Basic", Format := "Wild", Class := "Neutral",
    Ctype := "Minion", SubType := some "Beast", ATK := some 3, HP := some 2,
    CardText := none, Keywords := none, nRarity := 1, nCollection := 0,
    nClass := 10 }

/-- A record with no `set` field (a card retired from play). -/
def cardNoSet : Card :=
  { cost := some 3, name := some "Coldlight Oracle", rarity := some "RARE",
    set := none, cardClass := some "NEUTRAL", type := some "MINION" }

/-- The row `parse` produces for `cardNoSet`. -/
def rowNoSet : Normalized :=
  { Mana := 3, Name := "Coldlight Oracle", Rarity := "Rare",
    Collection := "Promo", Format := "Wild", Class := "Neutral",
    Ctype := "Minion", SubType := none, ATK := none, HP := none,
    CardText := none, Keywords := none, nRarity := 2, nCollection := -1,
    nClass := 10 }

/-- A Hero of the ICECROWN set whose only mechanic is SECRET. -/
def cardSecretHero : Card :=
  { type := some "HERO", set := some "ICECROWN", mechanics := some ["SECRET"] }

/-- A Hero with no `set` field whose only mechanic is QUEST. -/
def cardQuestHero : Card :=
  { type := some "HERO", set := none, mechanics := some ["QUEST"] }

/-- A Hero with no `set` field and no mechanics. -/
def cardHeroNoSet : Card := { type := some "HERO", set := none }

/-- A spell whose only mechanic is QUEST. -/
def cardQuest : Card := { type := some "SPELL", mechanics := some ["QUEST"] }

/-- A spell whose only mechanic is SECRET. -/
def cardSecret : Card := { type := some "SPELL", mechanics := some ["SECRET"] }

/-- A minion with SECRET alongside another mechanic. -/
def cardMixed : Card :=
  { type := some "MINION", mechanics := some ["SECRET", "TAUNT"] }

/-- A record with an unrecognized multi-class group but an existing race. -/
def cardBadGang : Card :=
  { cost := some 1, name := some "X", rarity := some "COMMON",
    set := some "CORE", cardClass := some "MAGE", type := some "MINION",
    race := some "ELEMENTAL", multiClassGroup := some "BOGUS" }

/-- The row `parse` produces for `cardBadGang`. -/
def rowBadGang : Normalized :=
  { Mana := 1, Name := "X", Rarity := "Common", Collection := "Basic",
    Format := "Wild", Class := "Mage", Ctype := "Minion",
    SubType := some "Elemental", ATK := none, HP := none, CardText := none,
    Keywords := none, nRarity := 1, nCollection := 0, nClass := 3 }

/-- A record with an unregistered set identifier. -/
def cardBadSet : Card :=
  { cost := some 1, name := some "Z", rarity := some "COMMON",
    set := some "DRAGONS", cardClass := some "MAGE", type := some "SPELL" }

/-- A record with overlapping primary and secondary keyword tags. -/
def cardKW : Card :=
  { mechanics := some ["TAUNT", "DIVINE_SHIELD", "TAUNT"],
    referencedTags := some ["RECRUIT", "SECRET"] }

/-- A record whose referencedTags mention SECRET but whose mechanics are
empty (the Mad Scientist shape). -/
def cardRefSecret : Card :=
  { mechanics := some [], referencedTags := some ["SECRET"] }

/-! ## Scanner infrastructure: fuel irrelevance and unfolding equations -/

theorem length_dropWhile_le (p : Char → Bool) (l : List Char) :
    (List.dropWhile p l).length ≤ l.length := by
  induction l with
  | nil => simp
  | cons a t ih =>
    rw [List.dropWhile_cons]
    by_cases hp : p a = true
    · rw [if_pos hp]; exact Nat.le_succ_of_le ih
    · rw [if_neg hp]

theorem replF_congr (p : Char) (ps rep : List Char) :
    ∀ f g l, l.length ≤ f → l.length ≤ g →
      replF p ps rep f l = replF p ps rep g l := by
  intro f
  induction f with
  | zero =>
    intro g l hf _
    have hl : l = [] := List.eq_nil_of_length_eq_zero (Nat.le_zero.mp hf)
    subst hl; cases g <;> rfl
  | succ f ih =>
    intro g l hf hg
    cases l with
    | nil => cases g <;> rfl
    | cons c t =>
      cases g with
      | zero => simp at hg
      | succ g =>
        simp only [replF]
        by_cases hb : begWith (p :: ps) (c :: t) = true
        · rw [if_pos hb, if_pos hb]
          refine congrArg (rep ++ ·) (ih g (t.drop ps.length) ?_ ?_) <;>
            · simp only [List.length_drop]
              simp only [List.length_cons] at hf hg
              omega
        · rw [if_neg hb, if_neg hb]
          refine congrArg (c :: ·) (ih g t ?_ ?_) <;>
            · simp only [List.length_cons] at hf hg
              omega

theorem repl_nil (p : Char) (ps rep : List Char) : repl p ps rep [] = [] := rfl

theorem repl_cons (p : Char) (ps rep : List Char) (c : Char) (t : List Char) :
    repl p ps rep (c :: t) =
      if begWith (p :: ps) (c :: t) then rep ++ repl p ps rep (t.drop ps.length)
      else c :: repl p ps rep t := by
  show replF p ps rep (t.length + 1) (c :: t) = _
  simp only [replF]
  by_cases hb : begWith (p :: ps) (c :: t) = true
  · rw [if_pos hb, if_pos hb]
    exact congrArg (rep ++ ·)
      (replF_congr p ps rep t.length (t.drop ps.length).length (t.drop ps.length)
        (by simp only [List.length_drop]; omega) le_rfl)
  · rw [if_neg hb, if_neg hb]
    rfl

theorem repl_id (p : Char) (ps rep : List Char) :
    ∀ l, hasSub (p :: ps) l = false → repl p ps rep l = l := by
  intro l
  induction l with
  | nil => intro _; rfl
  | cons c t ih =>
    intro h
    simp only [hasSub, Bool.or_eq_false_iff] at h
    rw [repl_cons, if_neg (by simp [h.1]), ih h.2]

theorem sub1F_congr :
    ∀ f g l, l.length ≤ f → l.length ≤ g → sub1F f l = sub1F g l := by
  intro f
  induction f with
  | zero =>
    intro g l hf _
    have hl : l = [] := List.eq_nil_of_length_eq_zero (Nat.le_zero.mp hf)
    subst hl; cases g <;> rfl
  | succ f ih =>
    intro g l hf hg
    cases l with
    | nil => cases g <;> rfl
    | cons c t =>
      cases g with
      | zero => simp at hg
      | succ g =>
        simp only [sub1F]
        by_cases hb : begWith tagB (c :: t) = true
        · rw [if_pos hb, if_pos hb]
          cases hm : tryMatch ((c :: t).drop 4) with
          | some dn =>
            obtain ⟨d, n⟩ := dn
            refine congrArg (fun x => tagB ++ ['.', ' '] ++ d :: x)
              (ih g ((c :: t).drop (4 + n)) ?_ ?_) <;>
              · simp only [List.length_drop, List.length_cons]
                simp only [List.length_cons] at hf hg
                omega
          | none =>
            refine congrArg (c :: ·) (ih g t ?_ ?_) <;>
              · simp only [List.length_cons] at hf hg
                omega
        · rw [if_neg hb, if_neg hb]
          refine congrArg (c :: ·) (ih g t ?_ ?_) <;>
            · simp only [List.length_cons] at hf hg
              omega

theorem sub1_nil : sub1 [] = [] := rfl

theorem sub1_cons (c : Char) (t : List Char) :
    sub1 (c :: t) =
      if begWith tagB (c :: t) then
        match tryMatch ((c :: t).drop 4) with
        | some (d, n) => tagB ++ ['.', ' '] ++ d :: sub1 ((c :: t).drop (4 + n))
        | none => c :: sub1 t
      else c :: sub1 t := by
  show sub1F (t.length + 1) (c :: t) = _
  simp only [sub1F]
  by_cases hb : begWith tagB (c :: t) = true
  · rw [if_pos hb, if_pos hb]
    cases hm : tryMatch ((c :: t).drop 4) with
    | some dn =>
      obtain ⟨d, n⟩ := dn
      exact congrArg (fun x => tagB ++ ['.', ' '] ++ d :: x)
        (sub1F_congr t.length ((c :: t).drop (4 + n)).length ((c :: t).drop (4 + n))
          (by simp only [List.length_drop, List.length_cons]; omega) le_rfl)
    | none => rfl
  · rw [if_neg hb, if_neg hb]
    rfl

theorem outerI_mem_nl {l : List Char} {x : Char × Nat} :
    ∀ i, outerI l i = some x → '\n' ∈ l := by
  intro i
  induction i with
  | zero =>
    intro h
    unfold outerI at h
    by_cases hni : l[(0 : Nat)]? = some '\n'
    · exact List.getElem?_mem hni
    · rw [if_neg hni] at h; exact absurd h (by simp)
  | succ i ih =>
    intro h
    unfold outerI at h
    by_cases hni : l[(i + 1 : Nat)]? = some '\n'
    · exact List.getElem?_mem hni
    · rw [if_neg hni] at h; exact ih h

theorem tryMatch_mem_nl {l : List Char} {x : Char × Nat} (h : tryMatch l = some x) :
    '\n' ∈ l :=
  outerI_mem_nl _ h

theorem sub1_id : ∀ l, '\n' ∉ l → sub1 l = l := by
  intro l
  induction l with
  | nil => intro _; rfl
  | cons c t ih =>
    intro h
    have ht : '\n' ∉ t := fun hm => h (List.mem_cons_of_mem _ hm)
    have hno : tryMatch ((c :: t).drop 4) = none := by
      cases hm : tryMatch ((c :: t).drop 4) with
      | none => rfl
      | some x => exact absurd (List.drop_subset _ _ (tryMatch_mem_nl hm)) h
    rw [sub1_cons, hno]
    by_cases hb : begWith tagB (c :: t) = true
    · rw [if_pos hb]; exact congrArg (c :: ·) (ih ht)
    · rw [if_neg hb]; exact congrArg (c :: ·) (ih ht)

theorem sub2F_congr :
    ∀ f g l, l.length ≤ f → l.length ≤ g → sub2F f l = sub2F g l := by
  intro f
  induction f with
  | zero =>
    intro g l hf _
    have hl : l = [] := List.eq_nil_of_length_eq_zero (Nat.le_zero.mp hf)
    subst hl; cases g <;> rfl
  | succ f ih =>
    intro g l hf hg
    cases l with
    | nil => cases g <;> rfl
    | cons c t =>
      cases g with
      | zero => simp at hg
      | succ g =>
        simp only [sub2F]
        by_cases hb : '\n' ∈ (c :: t).takeWhile isPySpace
        · rw [if_pos hb, if_pos hb]
          have hw : 1 ≤ ((c :: t).takeWhile isPySpace).length :=
            List.length_pos.mpr (List.ne_nil_of_mem hb)
          refine congrArg (' ' :: ·)
            (ih g ((c :: t).drop ((c :: t).takeWhile isPySpace).length) ?_ ?_) <;>
            · simp only [List.length_drop, List.length_cons]
              simp only [List.length_cons] at hf hg
              omega
        · rw [if_neg hb, if_neg hb]
          refine congrArg (c :: ·) (ih g t ?_ ?_) <;>
            · simp only [List.length_cons] at hf hg
              omega

theorem sub2_nil : sub2 [] = [] := rfl

theorem sub2_cons (c : Char) (t : List Char) :
    sub2 (c :: t) =
      if '\n' ∈ (c :: t).takeWhile isPySpace then
        ' ' :: sub2 ((c :: t).drop ((c :: t).takeWhile isPySpace).length)
      else c :: sub2 t := by
  show sub2F (t.length + 1) (c :: t) = _
  simp only [sub2F]
  by_cases hb : '\n' ∈ (c :: t).takeWhile isPySpace
  · rw [if_pos hb, if_pos hb]
    exact congrArg (' ' :: ·)
      (sub2F_congr t.length _ ((c :: t).drop ((c :: t).takeWhile isPySpace).length)
        (by
          have hw : 1 ≤ ((c :: t).takeWhile isPySpace).length :=
            List.length_pos.mpr (List.ne_nil_of_mem hb)
          simp only [List.length_drop, List.length_cons]
          omega)
        le_rfl)
  · rw [if_neg hb, if_neg hb]
    rfl

theorem sub2_id : ∀ l, '\n' ∉ l → sub2 l = l := by
  intro l
  induction l with
  | nil => intro _; rfl
  | cons c t ih =>
    intro h
    have ht : '\n' ∉ t := fun hm => h (List.mem_cons_of_mem _ hm)
    have hb : '\n' ∉ (c :: t).takeWhile isPySpace :=
      fun hm => h ((List.takeWhile_sublist _).subset hm)
    rw [sub2_cons, if_neg hb]
    exact congrArg (c :: ·) (ih ht)

theorem subNumF_congr (p : Char) :
    ∀ f g l, l.length ≤ f → l.length ≤ g → subNumF p f l = subNumF p g l := by
  intro f
  induction f with
  | zero =>
    intro g l hf _
    have hl : l = [] := List.eq_nil_of_length_eq_zero (Nat.le_zero.mp hf)
    subst hl; cases g <;> rfl
  | succ f ih =>
    intro g l hf hg
    cases l with
    | nil => cases g <;> rfl
    | cons c1 t1 =>
      cases t1 with
      | nil =>
        cases g with
        | zero => simp at hg
        | succ g => rfl
      | cons c2 t =>
        cases g with
        | zero => simp at hg
        | succ g =>
          simp only [subNumF]
          by_cases hb : (c1 == p && c2.isDigit) = true
          · rw [if_pos hb, if_pos hb]
            have hd : c2.isDigit = true := by
              have hb2 := hb
              simp only [Bool.and_eq_true] at hb2
              exact hb2.2
            have hds : 1 ≤ ((c2 :: t).takeWhile Char.isDigit).length := by
              rw [List.takeWhile_cons, if_pos hd]
              simp
            have hlen : ((c2 :: t).drop ((c2 :: t).takeWhile Char.isDigit).length).length ≤ t.length := by
              simp only [List.length_drop, List.length_cons]
              omega
            simp only [List.length_cons] at hf hg
            exact congrArg ((c2 :: t).takeWhile Char.isDigit ++ ·)
              (ih g ((c2 :: t).drop ((c2 :: t).takeWhile Char.isDigit).length)
                (le_trans hlen (by omega)) (le_trans hlen (by omega)))
          · rw [if_neg hb, if_neg hb]
            simp only [List.length_cons] at hf hg
            exact congrArg (c1 :: ·)
              (ih g (c2 :: t) (by simp only [List.length_cons]; omega)
                (by simp only [List.length_cons]; omega))

theorem subNum_nil (p : Char) : subNum p [] = [] := rfl

theorem subNum_one (p c : Char) : subNum p [c] = [c] := rfl

theorem subNum_cons₂ (p c1 c2 : Char) (t : List Char) :
    subNum p (c1 :: c2 :: t) =
      if c1 == p && c2.isDigit then
        (c2 :: t).takeWhile Char.isDigit ++
          subNum p ((c2 :: t).drop ((c2 :: t).takeWhile Char.isDigit).length)
      else c1 :: subNum p (c2 :: t) := by
  show subNumF p (t.length + 1 + 1) (c1 :: c2 :: t) = _
  simp only [subNumF]
  by_cases hb : (c1 == p && c2.isDigit) = true
  · rw [if_pos hb, if_pos hb]
    have hd : c2.isDigit = true := by
      have hb2 := hb
      simp only [Bool.and_eq_true] at hb2
      exact hb2.2
    refine congrArg (_ ++ ·) (subNumF_congr p (t.length + 1) _ _ ?_ le_rfl)
    have hds : 1 ≤ ((c2 :: t).takeWhile Char.isDigit).length := by
      rw [List.takeWhile_cons, if_pos hd]; simp
    simp only [List.length_drop, List.length_cons]
    omega
  · rw [if_neg hb, if_neg hb]
    exact congrArg (c1 :: ·) (subNumF_congr p (t.length + 1) _ _ le_rfl le_rfl)

theorem subNum_id (p : Char) : ∀ l, pairedNum p l = false → subNum p l = l := by
  intro l
  induction l with
  | nil => intro _; rfl
  | cons a t ih =>
    cases t with
    | nil => intro _; rfl
    | cons b t' =>
      intro h
      simp only [pairedNum, Bool.or_eq_false_iff] at h
      rw [subNum_cons₂, if_neg (by simp [h.1]), ih h.2]

/-! ## Strip and trailing-period lemmas -/

theorem dropWhile_idem (p : Char → Bool) (l : List Char) :
    List.dropWhile p (List.dropWhile p l) = List.dropWhile p l := by
  induction l with
  | nil => rfl
  | cons a t ih =>
    rw [List.dropWhile_cons]
    by_cases hp : p a = true
    · rw [if_pos hp]; exact ih
    · rw [if_neg hp, List.dropWhile_cons, if_neg hp]

theorem dropEndWhile_idem (p : Char → Bool) (l : List Char) :
    dropEndWhile p (dropEndWhile p l) = dropEndWhile p l := by
  unfold dropEndWhile
  rw [List.reverse_reverse, dropWhile_idem]

theorem dropWhile_dropEndWhile (p : Char → Bool) (l : List Char)
    (h : List.dropWhile p l = l) :
    List.dropWhile p (dropEndWhile p l) = dropEndWhile p l := by
  cases l with
  | nil => rfl
  | cons a t =>
    have hpa : p a = false := by
      by_contra hpa
      rw [Bool.not_eq_false] at hpa
      rw [List.dropWhile_cons, if_pos hpa] at h
      have h1 := length_dropWhile_le p t
      rw [h] at h1
      simp at h1
    unfold dropEndWhile
    have hrev : (a :: t).reverse = t.reverse ++ [a] := by simp
    rw [hrev, List.dropWhile_append]
    by_cases he : (List.dropWhile p t.reverse).isEmpty = true
    · rw [if_pos he]
      rw [List.dropWhile_cons, if_neg (by rw [hpa]; simp)]
      simp [hpa]
    · rw [if_neg he]
      have : (List.dropWhile p t.reverse ++ [a]).reverse =
          a :: (List.dropWhile p t.reverse).reverse := by simp
      rw [this, List.dropWhile_cons, if_neg (by rw [hpa]; simp)]

theorem stripL_front_fix (l : List Char) :
    List.dropWhile isUniSpace (stripL l) = stripL l :=
  dropWhile_dropEndWhile isUniSpace _ (dropWhile_idem isUniSpace l)

theorem stripL_idem (l : List Char) : stripL (stripL l) = stripL l := by
  show dropEndWhile isUniSpace (List.dropWhile isUniSpace (stripL l)) = stripL l
  rw [stripL_front_fix]
  exact dropEndWhile_idem isUniSpace _

theorem dropWhile_append_dot (p : Char → Bool) (s : List Char) (d : Char)
    (hs : List.dropWhile p s = s) (hd : p d = false) :
    List.dropWhile p (s ++ [d]) = s ++ [d] := by
  rw [List.dropWhile_append]
  by_cases he : (List.dropWhile p s).isEmpty = true
  · rw [if_pos he]
    have hnil : s = [] := by
      rw [hs] at he
      exact List.isEmpty_iff.mp he
    subst hnil
    rw [List.dropWhile_cons, if_neg (by rw [hd]; simp)]
    rfl
  · rw [if_neg he, hs]

theorem stripL_append_dot (l : List Char) :
    stripL (stripL l ++ ['.']) = stripL l ++ ['.'] := by
  show dropEndWhile isUniSpace (List.dropWhile isUniSpace (stripL l ++ ['.'])) = _
  rw [dropWhile_append_dot isUniSpace _ '.' (stripL_front_fix l) (by decide)]
  unfold dropEndWhile
  have : (stripL l ++ ['.']).reverse = '.' :: (stripL l).reverse := by simp
  rw [this, List.dropWhile_cons, if_neg (by decide)]
  simp

theorem periodStep_idem (l : List Char) :
    periodStep (periodStep l) = periodStep l := by
  rcases hl : l.getLast? with _ | c
  · have h1 : periodStep l = l := by unfold periodStep; rw [hl]
    rw [h1, h1]
  · by_cases hc : '.' ∈ l ∧ c ∉ ['.', ')', '\x27', '"']
    · have h1 : periodStep l = l ++ ['.'] := by
        unfold periodStep
        rw [hl]
        show (if '.' ∈ l ∧ c ∉ ['.', ')', '\x27', '"'] then l ++ ['.'] else l) = l ++ ['.']
        rw [if_pos hc]
      rw [h1]
      unfold periodStep
      rw [List.getLast?_concat]
      show (if '.' ∈ l ++ ['.'] ∧ '.' ∉ ['.', ')', '\x27', '"'] then (l ++ ['.']) ++ ['.']
          else l ++ ['.']) = l ++ ['.']
      rw [if_neg (fun h => h.2 (by decide))]
    · have h1 : periodStep l = l := by
        unfold periodStep
        rw [hl]
        show (if '.' ∈ l ∧ c ∉ ['.', ')', '\x27', '"'] then l ++ ['.'] else l) = l
        rw [if_neg hc]
      rw [h1, h1]

theorem stripL_periodStep_stripL (u : List Char) :
    stripL (periodStep (stripL u)) = periodStep (stripL u) := by
  rcases hl : (stripL u).getLast? with _ | c
  · have h1 : periodStep (stripL u) = stripL u := by unfold periodStep; rw [hl]
    rw [h1]; exact stripL_idem u
  · by_cases hc : '.' ∈ stripL u ∧ c ∉ ['.', ')', '\x27', '"']
    · have h1 : periodStep (stripL u) = stripL u ++ ['.'] := by
        unfold periodStep
        rw [hl]
        show (if '.' ∈ stripL u ∧ c ∉ ['.', ')', '\x27', '"'] then stripL u ++ ['.']
            else stripL u) = stripL u ++ ['.']
        rw [if_pos hc]
      rw [h1]; exact stripL_append_dot u
    · have h1 : periodStep (stripL u) = stripL u := by
        unfold periodStep
        rw [hl]
        show (if '.' ∈ stripL u ∧ c ∉ ['.', ')', '\x27', '"'] then stripL u ++ ['.']
            else stripL u) = stripL u
        rw [if_neg hc]
      rw [h1]; exact stripL_idem u

/-- C5 (helper): a second `normalize_text` pass is the identity on any output
whose rewriting stages are all inert. -/
theorem normTextL_clean_fix (t : List Char) (h : cleanText t)
    (hrep : ∃ u, t = periodStep (stripL u)) :
    normTextL t = t := by
  obtain ⟨hnl, h1, h2, h3, h4, h5, h6, h7, h8, h9⟩ := h
  obtain ⟨u, hu⟩ := hrep
  unfold normTextL
  rw [sub1_id t hnl, sub2_id t hnl, repl_id _ _ _ t h1, repl_id _ _ _ t h2,
    repl_id _ _ _ t h3, repl_id _ _ _ t h4, repl_id _ _ _ t h5,
    repl_id _ _ _ t h6, repl_id _ _ _ t h7, subNum_id _ t h8, subNum_id _ t h9,
    hu, stripL_periodStep_stripL, periodStep_idem]

/-- C5 (corrected): the Text Normalizer is idempotent on every input string
whose once-normalized form is free of newlines, markup tokens, special
characters and scaling prefixes — equivalently, whenever deleting a token in
the first pass does not create a new token.  (Unrestricted idempotence is
refuted by `C5_counterexample`.) -/
theorem C5_text_idem_on_clean (s : String) (h : cleanText (normalize_text s).data) :
    normalize_text (normalize_text s) = normalize_text s := by
  have hds : ∀ r : String, (normalize_text r).data = normTextL r.data := by
    intro r
    simp only [normalize_text]
  have hshape : normTextL s.data =
      periodStep (stripL
        (subNum '#' (subNum '$'
          (repl '[' ['x', ']'] []
            (repl '<' ['/', 'i', '>'] []
              (repl '<' ['i', '>'] []
                (repl '<' ['/', 'b', '>'] []
                  (repl '<' ['b', '>'] []
                    (repl '\u2019' [] ['\x27']
                      (repl '\u00A0' [] [' ']
                        (sub2 (sub1 s.data)))))))))))) := rfl
  rw [hds s] at h
  have hfix : normTextL (normTextL s.data) = normTextL s.data :=
    normTextL_clean_fix _ h ⟨_, hshape⟩
  calc normalize_text (normalize_text s)
      = String.mk (normTextL (normalize_text s).data) := rfl
    _ = String.mk (normTextL (normTextL s.data)) := by rw [hds s]
    _ = String.mk (normTextL s.data) := by rw [hfix]
    _ = normalize_text s := rfl

/-- C5 (counterexample): `normalize_text` is not idempotent on the input
`"<<b>b>"`: one pass deletes the inner `<b>` and thereby creates a fresh
`<b>` token, which a second pass deletes. -/
theorem C5_counterexample :
    normalize_text (normalize_text "<<b>b>") ≠ normalize_text "<<b>b>" := by
  decide

theorem C5_witness :
    cleanText (normalize_text "<b>Taunt</b>\n<b>Divine Shield</b>").data ∧
    normalize_text (normalize_text "<b>Taunt</b>\n<b>Divine Shield</b>") =
      normalize_text "<b>Taunt</b>\n<b>Divine Shield</b>" :=
  ⟨by decide, C5_text_idem_on_clean _ (by decide)⟩

/-! ## Sentence-break insertion (C6) -/

theorem begWith_congr (pat : List Char) :
    ∀ {l l' : List Char}, l.take pat.length = l'.take pat.length →
      begWith pat l = begWith pat l' := by
  induction pat with
  | nil => intro l l' _; rfl
  | cons p ps ih =>
    intro l l' h
    cases l with
    | nil =>
      cases l' with
      | nil => rfl
      | cons c' t' => simp [List.take] at h
    | cons c t =>
      cases l' with
      | nil => simp [List.take] at h
      | cons c' t' =>
        simp only [List.length_cons, List.take_succ_cons] at h
        injection h with hc ht
        simp only [begWith]
        rw [hc, ih ht]

theorem take_tagB3_eq (m : Nat) (hm : m ≤ 3) (rest : List Char) :
    tagB3.take m = (tagB ++ rest).take m := by
  have hm' : m ≤ tagB.length := by simp [tagB]; omega
  rw [List.take_append_of_le_length hm']
  rcases (by omega : m = 0 ∨ m = 1 ∨ m = 2 ∨ m = 3) with h | h | h | h <;>
    (subst h; rfl)

theorem take4_append_tagB3 (y : List Char) (hy : y ≠ []) (rest : List Char) :
    (y ++ tagB3).take 4 = (y ++ (tagB ++ rest)).take 4 := by
  rw [List.take_append_eq_append_take, List.take_append_eq_append_take]
  congr 1
  exact take_tagB3_eq (4 - y.length)
    (by have := List.length_pos.mpr hy; omega) rest

/-- C6 (helper): the scan of `sub1` copies any prefix in which no `</b>`
occurs (also not straddling into a following `</b>`). -/
theorem sub1_copy :
    ∀ (a rest : List Char), hasSub tagB (a ++ tagB3) = false →
      (∃ r', rest = tagB ++ r') → sub1 (a ++ rest) = a ++ sub1 rest := by
  intro a
  induction a with
  | nil => intro rest _ _; rfl
  | cons x a' ih =>
    intro rest hA hr
    obtain ⟨r', hr'⟩ := hr
    rw [List.cons_append] at hA
    simp only [hasSub, Bool.or_eq_false_iff] at hA
    obtain ⟨h1, h2⟩ := hA
    have heq : (x :: (a' ++ tagB3)).take tagB.length =
        (x :: (a' ++ rest)).take tagB.length := by
      subst hr'
      show (x :: (a' ++ tagB3)).take 4 = (x :: (a' ++ (tagB ++ r'))).take 4
      rw [show x :: (a' ++ tagB3) = (x :: a') ++ tagB3 from rfl,
        show x :: (a' ++ (tagB ++ r')) = (x :: a') ++ (tagB ++ r') from rfl]
      exact take4_append_tagB3 (x :: a') (by simp) r'
    have hbw : begWith tagB (x :: (a' ++ rest)) = false := by
      rw [← begWith_congr tagB heq]; exact h1
    rw [List.cons_append, sub1_cons, if_neg (by simp [hbw]), ih rest h2 ⟨r', hr'⟩]
    rfl

theorem tryMatch_single_nl (c : Char) (b : List Char)
    (hc2 : isPySpace c = false) (hc1 : c.isLower = false) :
    tryMatch ('\n' :: c :: b) = some (c, 2) := by
  have hcn : ('\n' :: c :: b)[(1 : Nat)]? ≠ some '\n' := by
    simp only [List.getElem?_cons_succ, List.getElem?_cons_zero]
    intro he
    rw [Option.some.injEq] at he
    subst he
    simp [isPySpace] at hc2
  have hw : ('\n' :: c :: b).takeWhile isPySpace = ['\n'] := by
    rw [List.takeWhile_cons, if_pos (by decide), List.takeWhile_cons,
      if_neg (by rw [hc2]; simp)]
  have hw2 : (c :: b).takeWhile isPySpace = [] := by
    rw [List.takeWhile_cons, if_neg (by rw [hc2]; simp)]
  unfold tryMatch
  rw [hw]
  show outerI ('\n' :: c :: b) (0 + 1) = some (c, 2)
  unfold outerI
  rw [if_neg hcn]
  unfold outerI
  rw [if_pos (by simp)]
  have hdrop : ('\n' :: c :: b).drop 1 = c :: b := rfl
  rw [hdrop, hw2]
  show (match innerJ (c :: b) 0 with
    | some (d, j) => some (d, 0 + 1 + j + 1)
    | none => none) = some (c, 2)
  unfold innerJ
  rw [List.getElem?_cons_zero]
  show (match (if c.isLower then none else some (c, 0)) with
    | some (d, j) => some (d, 0 + 1 + j + 1)
    | none => none) = some (c, 2)
  rw [if_neg (by simp [hc1])]

/-- C6 (helper): `sub1` at a `</b>` immediately followed by a newline and a
non-lowercase, non-whitespace character replaces tag-plus-newline with
`</b>. ` and keeps the following character. -/
theorem sub1_hit (c : Char) (b : List Char)
    (hc1 : c.isLower = false) (hc2 : isPySpace c = false) :
    sub1 (tagB ++ '\n' :: c :: b) = tagB ++ ['.', ' '] ++ c :: sub1 b := by
  rw [show tagB ++ '\n' :: c :: b = '<' :: '/' :: 'b' :: '>' :: '\n' :: c :: b from rfl]
  rw [sub1_cons]
  rw [if_pos (by rfl)]
  rw [show ('<' :: '/' :: 'b' :: '>' :: '\n' :: c :: b).drop 4 = '\n' :: c :: b from rfl]
  rw [tryMatch_single_nl c b hc2 hc1]
  show tagB ++ ['.', ' '] ++ c ::
      sub1 (List.drop (4 + 2) ('<' :: '/' :: 'b' :: '>' :: '\n' :: c :: b)) =
    tagB ++ ['.', ' '] ++ c :: sub1 b
  rfl

/-- C6 (confirmed): wherever a markup closing tag `</b>` is immediately
followed by a newline and then a non-lowercase-starting (and non-whitespace)
character, and no `</b>` occurs earlier in (or straddling out of) the
preceding text, the sentence-break pass of the Text Normalizer replaces the
tag-plus-newline with the tag, a period and a space, keeping the following
character and continuing behind it; in particular
`"<b>Taunt</b>\n<b>Divine Shield</b>"` normalizes to
`"Taunt. Divine Shield."`. -/
theorem C6_sentence_break :
    (∀ (a : List Char) (c : Char) (b : List Char),
      hasSub tagB (a ++ tagB3) = false → c.isLower = false →
      isPySpace c = false →
      sub1 (a ++ (tagB ++ '\n' :: c :: b)) =
        a ++ (tagB ++ ['.', ' ']) ++ c :: sub1 b) ∧
    normalize_text "<b>Taunt</b>\n<b>Divine Shield</b>" = "Taunt. Divine Shield." := by
  constructor
  · intro a c b hA hc1 hc2
    rw [sub1_copy a (tagB ++ '\n' :: c :: b) hA ⟨'\n' :: c :: b, rfl⟩]
    rw [sub1_hit c b hc1 hc2]
    simp [List.append_assoc]
  · rfl

theorem C6_witness :
    sub1 (['R'] ++ (tagB ++ '\n' :: 'X' :: [])) =
      ['R'] ++ (tagB ++ ['.', ' ']) ++ 'X' :: sub1 [] :=
  C6_sentence_break.1 ['R'] 'X' [] (by decide) (by decide) (by decide)

/-! ## parse: inversion and frame lemmas -/

theorem indexIn_mem {x : String} : ∀ {l : List String} {i : Nat},
    indexIn x l = some i → x ∈ l := by
  intro l
  induction l with
  | nil => intro i h; simp [indexIn] at h
  | cons a t ih =>
    intro i h
    unfold indexIn at h
    by_cases ha : a = x
    · rw [ha]; exact List.mem_cons_self _ _
    · rw [if_neg ha] at h
      rcases hm : indexIn x t with _ | j
      · rw [hm] at h; simp at h
      · exact List.mem_cons_of_mem _ (ih hm)

theorem cardDefaulted_set (c : Card) :
    (cardDefaulted c).set = some (setIdOf c) := by
  unfold cardDefaulted setIdOf
  rcases hs : c.set with _ | s
  · simp
  · simp [hs]

theorem cardDefaulted_cardClass (c : Card) :
    (cardDefaulted c).cardClass = c.cardClass := by
  unfold cardDefaulted
  by_cases hs : c.set = none
  · rw [if_pos hs]
  · rw [if_neg hs]

theorem cardDefaulted_multiClassGroup (c : Card) :
    (cardDefaulted c).multiClassGroup = c.multiClassGroup := by
  unfold cardDefaulted
  by_cases hs : c.set = none
  · rw [if_pos hs]
  · rw [if_neg hs]

theorem cardDefaulted_race (c : Card) :
    (cardDefaulted c).race = c.race := by
  unfold cardDefaulted
  by_cases hs : c.set = none
  · rw [if_pos hs]
  · rw [if_neg hs]

theorem cardDefaulted_mechanics (c : Card) :
    (cardDefaulted c).mechanics = c.mechanics := by
  unfold cardDefaulted
  by_cases hs : c.set = none
  · rw [if_pos hs]
  · rw [if_neg hs]

/-- Inversion of a successful `parse`: the output's Rarity, Collection, Class
and ordering columns are determined by the corresponding lookups, and
`normalize_type` succeeded on the (set-defaulted) card. -/
theorem parse_ok_fields {c : Card} {n : Normalized}
    (h : (parse c).fst = Except.ok n) :
    (∃ r0, c.rarity = some r0 ∧ n.Rarity = remapRarity (capitalize r0)) ∧
    indexIn n.Rarity RARITY = some n.nRarity ∧
    List.lookup (setIdOf c) SETS = some (n.Collection, n.nCollection) ∧
    (∃ cl0, c.cardClass = some cl0 ∧ n.Class = capitalize cl0) ∧
    indexIn n.Class CLASSES = some n.nClass ∧
    (∃ p, normalize_type (cardDefaulted c) = Except.ok p) := by
  unfold parse at h
  rcases hc : c.cost with _ | cost
  · simp only [hc] at h; simp at h
  simp only [hc] at h
  rcases hn : c.name with _ | name
  · simp only [hn] at h; simp at h
  simp only [hn] at h
  rcases hr : c.rarity with _ | rarity0
  · simp only [hr] at h; simp at h
  simp only [hr] at h
  unfold parseRest at h
  rcases hset : (cardDefaulted c).set with _ | setId
  · simp only [hset] at h; simp at h
  simp only [hset] at h
  rcases hlk : List.lookup setId SETS with _ | pr
  · simp only [hlk] at h; simp at h
  obtain ⟨collName, collIdx⟩ := pr
  simp only [hlk] at h
  rcases hcl : (cardDefaulted c).cardClass with _ | cls0
  · simp only [hcl] at h; simp at h
  simp only [hcl] at h
  rcases hnt : normalize_type (cardDefaulted c) with e | tp
  · simp only [hnt] at h; simp at h
  obtain ⟨ctype, subtype⟩ := tp
  simp only [hnt] at h
  rcases htx : cardTextOf (cardDefaulted c) with e | textOpt
  · simp only [htx] at h; simp at h
  simp only [htx] at h
  rcases hri : indexIn (remapRarity (capitalize rarity0)) RARITY with _ | ri
  · simp only [hri] at h; simp at h
  simp only [hri] at h
  rcases hci : indexIn (capitalize cls0) CLASSES with _ | ci
  · simp only [hci] at h; simp at h
  simp only [hci] at h
  simp only [Except.ok.injEq] at h
  subst h
  have hsid : setIdOf c = setId := by
    have hd := cardDefaulted_set c
    rw [hset] at hd
    exact (Option.some.inj hd).symm
  refine ⟨⟨rarity0, rfl, rfl⟩, hri, ?_, ⟨cls0, ?_, rfl⟩, hci, ⟨(ctype, subtype), rfl⟩⟩
  · rw [hsid]; exact hlk
  · rw [← cardDefaulted_cardClass c]; exact hcl

/-- C1 (confirmed): for every Source Record whose set identifier is a key of
the Set Registry, a successful `parse` outputs the registry's display name as
Collection and the registry's numeric index as #Collection. -/
theorem C1_collection_from_registry :
    ∀ (c : Card) (s nm : String) (idx : Int) (n : Normalized),
      c.set = some s → List.lookup s SETS = some (nm, idx) →
      (parse c).fst = Except.ok n →
      n.Collection = nm ∧ n.nCollection = idx := by
  intro c s nm idx n hs hl h
  obtain ⟨-, -, h3, -, -, -⟩ := parse_ok_fields h
  have hid : setIdOf c = s := by unfold setIdOf; rw [hs]
  rw [hid, hl] at h3
  simp only [Option.some.injEq, Prod.mk.injEq] at h3
  exact ⟨h3.1.symm, h3.2.symm⟩

theorem C1_witness : rowOk.Collection = "Basic" ∧ rowOk.nCollection = 0 :=
  C1_collection_from_registry cardOk "CORE" "Basic" 0 rowOk rfl rfl rfl

/-- C4 (confirmed): every record `parse` processes successfully has a Rarity
among the five fixed labels, #Rarity at its zero-based position in `RARITY`
("Legendary" gives 4), a source rarity `"FREE"` remapped to `"Basic"`, and
never the label `"Free"`. -/
theorem C4_rarity_fixed_labels :
    ∀ (c : Card) (n : Normalized), (parse c).fst = Except.ok n →
      n.Rarity ∈ RARITY ∧
      indexIn n.Rarity RARITY = some n.nRarity ∧
      (n.Rarity = "Legendary" → n.nRarity = 4) ∧
      (c.rarity = some "FREE" → n.Rarity = "Basic") ∧
      n.Rarity ≠ "Free" := by
  intro c n h
  obtain ⟨⟨r0, hr0, hR⟩, h2, -, -, -, -⟩ := parse_ok_fields h
  have hmem : n.Rarity ∈ RARITY := indexIn_mem h2
  refine ⟨hmem, h2, ?_, ?_, ?_⟩
  · intro hleg
    rw [hleg] at h2
    have h4 : indexIn "Legendary" RARITY = some 4 := rfl
    rw [h4] at h2
    exact (Option.some.inj h2).symm
  · intro hf
    rw [hf] at hr0
    have : r0 = "FREE" := Option.some.inj hr0.symm
    rw [hR, this]
    rfl
  · intro he
    rw [he] at hmem
    exact absurd hmem (by decide)

theorem C4_witness :
    rowOk.Rarity ∈ RARITY ∧ indexIn rowOk.Rarity RARITY = some rowOk.nRarity := by
  have h := C4_rarity_fixed_labels cardOk rowOk rfl
  exact ⟨h.1, h.2.1⟩

/-- C8 (confirmed): a Source Record without a set field is given the fallback
set identifier `"HOF"`, so a successful `parse` outputs Collection `"Promo"`
and #Collection `-1`, the registry's entry for `"HOF"`. -/
theorem C8_missing_set_promo :
    ∀ (c : Card) (n : Normalized), c.set = none → (parse c).fst = Except.ok n →
      n.Collection = "Promo" ∧ n.nCollection = -1 ∧
      List.lookup "HOF" SETS = some ("Promo", -1) := by
  intro c n hs h
  obtain ⟨-, -, h3, -, -, -⟩ := parse_ok_fields h
  have hid : setIdOf c = "HOF" := by unfold setIdOf; rw [hs]
  rw [hid] at h3
  have hHOF : List.lookup "HOF" SETS = some ("Promo", (-1 : Int)) := rfl
  rw [hHOF] at h3
  simp only [Option.some.injEq, Prod.mk.injEq] at h3
  exact ⟨h3.1.symm, h3.2.symm, hHOF⟩

theorem C8_witness :
    rowNoSet.Collection = "Promo" ∧ rowNoSet.nCollection = -1 := by
  have h := C8_missing_set_promo cardNoSet rowNoSet rfl rfl
  exact ⟨h.1, h.2.1⟩

/-- If `normalize_type` succeeds on a card carrying a multi-class group while
no subtype was derived before the group step (no race, mechanics not exactly
`["SECRET"]`), the group must be in the `gangs` table. -/
theorem nt_ok_gang {card : Card} {p : String × Option String}
    (h : normalize_type card = Except.ok p) {g : String}
    (hg : card.multiClassGroup = some g) (hrace : card.race = none)
    (hmech : card.mechanics ≠ some ["SECRET"]) :
    List.lookup g gangs ≠ none := by
  unfold normalize_type at h
  rcases hty : card.type with _ | ty
  · simp only [hty] at h; simp at h
  simp only [hty] at h
  rcases hdk : dkType card (questType card (capitalize ty)) with e | ctype
  · simp only [hdk] at h; simp at h
  simp only [hdk] at h
  have hsec : secretSub card (card.race.map capitalize) = none := by
    unfold secretSub
    rcases hm : card.mechanics with _ | m
    · show Option.map capitalize card.race = none
      rw [hrace]
      rfl
    · have hne : m ≠ ["SECRET"] := by
        intro he; exact hmech (by rw [hm, he])
      show (if m = ["SECRET"] then some "Secret"
          else Option.map capitalize card.race) = none
      rw [if_neg hne, hrace]
      rfl
  rw [hsec] at h
  unfold groupSub at h
  simp only [hg] at h
  simp only [if_true] at h
  rcases hlk : List.lookup g gangs with _ | lbl
  · simp only [hlk] at h; simp at h
  · simp

/-- Every error `parseRest` raises carries the card it was called on (the
record the diagnostic identifies). -/
theorem parseRest_error_snd {card : Card} {cost : Int} {name rarity : String}
    {e : PErr × Card}
    (h : parseRest card cost name rarity = Except.error e) : e.2 = card := by
  unfold parseRest at h
  rcases hset : card.set with _ | setId
  · simp only [hset] at h
    simp only [Except.error.injEq] at h
    rw [← h]
  simp only [hset] at h
  rcases hlk : List.lookup setId SETS with _ | pr
  · simp only [hlk] at h
    simp only [Except.error.injEq] at h
    rw [← h]
  obtain ⟨collName, collIdx⟩ := pr
  simp only [hlk] at h
  rcases hcl : card.cardClass with _ | cls0
  · simp only [hcl] at h
    simp only [Except.error.injEq] at h
    rw [← h]
  simp only [hcl] at h
  rcases hnt : normalize_type card with e' | tp
  · simp only [hnt] at h
    simp only [Except.error.injEq] at h
    rw [← h]
  obtain ⟨ctype, subtype⟩ := tp
  simp only [hnt] at h
  rcases htx : cardTextOf card with e' | textOpt
  · simp only [htx] at h
    simp only [Except.error.injEq] at h
    rw [← h]
  simp only [htx] at h
  rcases hri : indexIn rarity RARITY with _ | ri
  · simp only [hri] at h
    simp only [Except.error.injEq] at h
    rw [← h]
  simp only [hri] at h
  rcases hci : indexIn (capitalize cls0) CLASSES with _ | ci
  · simp only [hci] at h
    simp only [Except.error.injEq] at h
    rw [← h]
  simp only [hci] at h
  simp at h

/-- C9 (corrected): a record with an unregistered set, a remapped rarity not
in the fixed rarity ordering, a capitalized class not in the fixed class
ordering, or an unrecognized multi-class group on a record with no previously
derived subtype, makes `parse` fail; and every `parse` error carries the
offending record (up to the in-place set defaulting).  The claim's original
multi-class-group condition without the no-subtype restriction is refuted by
`C9_counterexample`. -/
theorem C9_lookup_failures :
    (∀ c : Card,
      ((∃ s, c.set = some s ∧ List.lookup s SETS = none) ∨
       (∃ r0, c.rarity = some r0 ∧ remapRarity (capitalize r0) ∉ RARITY) ∨
       (∃ cl0, c.cardClass = some cl0 ∧ capitalize cl0 ∉ CLASSES) ∨
       (∃ g, c.multiClassGroup = some g ∧ List.lookup g gangs = none ∧
          c.race = none ∧ c.mechanics ≠ some ["SECRET"])) →
      ∃ e, (parse c).fst = Except.error e) ∧
    (∀ (c : Card) (e : PErr × Card), (parse c).fst = Except.error e →
      e.2 = c ∨ e.2 = { c with set := some "HOF" }) := by
  constructor
  · intro c hcond
    rcases hp : (parse c).fst with e | n
    · exact ⟨e, rfl⟩
    · exfalso
      obtain ⟨⟨r0, hr0, hR⟩, h2, h3, ⟨cl0, hcl0, hC⟩, h5, ⟨p, hnt⟩⟩ :=
        parse_ok_fields hp
      rcases hcond with ⟨s, hs, hlk⟩ | ⟨r0', hr0', hrar⟩ |
        ⟨cl0', hcl0', hcls⟩ | ⟨g, hg, hglk, hrace, hmech⟩
      · have hid : setIdOf c = s := by unfold setIdOf; rw [hs]
        rw [hid, hlk] at h3
        exact absurd h3 (by simp)
      · rw [hr0] at hr0'
        have he : r0' = r0 := Option.some.inj hr0'.symm
        subst he
        have hmem := indexIn_mem h2
        rw [hR] at hmem
        exact hrar hmem
      · rw [hcl0] at hcl0'
        have he : cl0' = cl0 := Option.some.inj hcl0'.symm
        subst he
        have hmem := indexIn_mem h5
        rw [hC] at hmem
        exact hcls hmem
      · have hg' : (cardDefaulted c).multiClassGroup = some g := by
          rw [cardDefaulted_multiClassGroup]; exact hg
        have hr' : (cardDefaulted c).race = none := by
          rw [cardDefaulted_race]; exact hrace
        have hm' : (cardDefaulted c).mechanics ≠ some ["SECRET"] := by
          rw [cardDefaulted_mechanics]; exact hmech
        exact (nt_ok_gang hnt hg' hr' hm') hglk
  · intro c e h
    unfold parse at h
    rcases hc : c.cost with _ | cost
    · simp only [hc] at h
      simp only [Except.error.injEq] at h
      left; rw [← h]
    simp only [hc] at h
    rcases hn : c.name with _ | name
    · simp only [hn] at h
      simp only [Except.error.injEq] at h
      left; rw [← h]
    simp only [hn] at h
    rcases hr : c.rarity with _ | r0
    · simp only [hr] at h
      simp only [Except.error.injEq] at h
      left; rw [← h]
    simp only [hr] at h
    have h2 := parseRest_error_snd h
    unfold cardDefaulted at h2
    by_cases hs : c.set = none
    · rw [if_pos hs] at h2
      rw [hc, hn, hr] at h2
      right; exact h2
    · rw [if_neg hs] at h2; left; exact h2

theorem C9_counterexample :
    cardBadGang.multiClassGroup = some "BOGUS" ∧
    List.lookup "BOGUS" gangs = none ∧
    (parse cardBadGang).fst = Except.ok rowBadGang := ⟨rfl, rfl, rfl⟩

theorem C9_witness : ∃ e, (parse cardBadSet).fst = Except.error e :=
  C9_lookup_failures.1 cardBadSet (Or.inl ⟨"DRAGONS", rfl, rfl⟩)

/-- On a card whose set field is present, `normalize_type` never fails with a
missing `set` field: the only read of `set` is the Death Knight branch. -/
theorem nt_error_kind {card : Card} {e' : PErr} (hset : card.set ≠ none)
    (h : normalize_type card = Except.error e') :
    e' ≠ PErr.missingField "set" := by
  unfold normalize_type at h
  rcases hty : card.type with _ | ty
  · simp only [hty] at h
    simp only [Except.error.injEq] at h
    rw [← h]
    simp
  simp only [hty] at h
  rcases hdk : dkType card (questType card (capitalize ty)) with ed | ctype
  · simp only [hdk] at h
    simp only [Except.error.injEq] at h
    subst h
    unfold dkType at hdk
    by_cases hh : questType card (capitalize ty) = "Hero"
    · rw [if_pos hh] at hdk
      rcases hcs : card.set with _ | s
      · exact absurd hcs hset
      · simp only [hcs] at hdk; simp at hdk
    · rw [if_neg hh] at hdk; simp at hdk
  simp only [hdk] at h
  rcases hg : groupSub card (secretSub card (card.race.map capitalize)) with eg | st
  · simp only [hg] at h
    simp only [Except.error.injEq] at h
    subst h
    unfold groupSub at hg
    rcases hmg : card.multiClassGroup with _ | g
    · simp only [hmg] at hg; simp at hg
    · simp only [hmg] at hg
      by_cases hsn : secretSub card (card.race.map capitalize) = none
      · rw [if_pos hsn] at hg
        rcases hlk : List.lookup g gangs with _ | lbl
        · simp only [hlk] at hg
          simp only [Except.error.injEq] at hg
          rw [← hg]
          simp
        · simp only [hlk] at hg; simp at hg
      · rw [if_neg hsn] at hg; simp at hg
  · simp only [hg] at h; simp at h

/-- On a card whose set field is present, no error of `parseRest` is a
missing `set` field. -/
theorem parseRest_error_kind {card : Card} {cost : Int} {name rarity : String}
    {e : PErr × Card} (hset : card.set ≠ none)
    (h : parseRest card cost name rarity = Except.error e) :
    e.1 ≠ PErr.missingField "set" := by
  unfold parseRest at h
  rcases hs : card.set with _ | setId
  · exact absurd hs hset
  simp only [hs] at h
  rcases hlk : List.lookup setId SETS with _ | pr
  · simp only [hlk] at h
    simp only [Except.error.injEq] at h
    rw [← h]
    simp
  obtain ⟨collName, collIdx⟩ := pr
  simp only [hlk] at h
  rcases hcl : card.cardClass with _ | cls0
  · simp only [hcl] at h
    simp only [Except.error.injEq] at h
    rw [← h]
    simp
  simp only [hcl] at h
  rcases hnt : normalize_type card with e' | tp
  · simp only [hnt] at h
    simp only [Except.error.injEq] at h
    rw [← h]
    exact nt_error_kind (by rw [hs]; simp) hnt
  obtain ⟨ctype, subtype⟩ := tp
  simp only [hnt] at h
  rcases htx : cardTextOf card with e' | textOpt
  · simp only [htx] at h
    simp only [Except.error.injEq] at h
    rw [← h]
    unfold cardTextOf at htx
    rcases hct : card.collectionText with _ | t
    · simp only [hct] at htx
      rcases hT : card.text with _ | t
      · simp only [hT] at htx; simp at htx
      · simp only [hT] at htx
        by_cases ha : (normTextL t.data).all (fun c => c.toNat < 128) = true
        · rw [if_pos ha] at htx; simp at htx
        · rw [if_neg ha] at htx
          simp only [Except.error.injEq] at htx
          rw [← htx]
          simp
    · simp only [hct] at htx
      by_cases ha : (normTextL t.data).all (fun c => c.toNat < 128) = true
      · rw [if_pos ha] at htx; simp at htx
      · rw [if_neg ha] at htx
        simp only [Except.error.injEq] at htx
        rw [← htx]
        simp
  simp only [htx] at h
  rcases hri : indexIn rarity RARITY with _ | ri
  · simp only [hri] at h
    simp only [Except.error.injEq] at h
    rw [← h]
    simp
  simp only [hri] at h
  rcases hci : indexIn (capitalize cls0) CLASSES with _ | ci
  · simp only [hci] at h
    simp only [Except.error.injEq] at h
    rw [← h]
    simp
  simp only [hci] at h
  simp at h

/-- C10 (corrected): invoked directly on a record whose type field
capitalizes to "Hero", that has no set field, and whose mechanics are not
exactly the quest tag (which would override the type before the Death Knight
check), the Type/Subtype Resolver fails with the missing-`set` lookup error;
under `parse` this branch is safe, because the fallback set identifier is
assigned before the resolver runs — no `parse` error is a missing `set`
field.  The original claim without the quest exclusion is refuted by
`C10_counterexample`. -/
theorem C10_hero_missing_set :
    (∀ (c : Card) (t : String), c.type = some t → capitalize t = "Hero" →
      c.set = none → c.mechanics ≠ some ["QUEST"] →
      normalize_type c = Except.error (PErr.missingField "set")) ∧
    (∀ (c : Card) (e : PErr × Card), (parse c).fst = Except.error e →
      e.1 ≠ PErr.missingField "set") := by
  constructor
  · intro c t hty hcap hset hmech
    unfold normalize_type
    simp only [hty]
    have hq : questType c (capitalize t) = capitalize t := by
      unfold questType
      rcases hm : c.mechanics with _ | m
      · rfl
      · have hne : m ≠ ["QUEST"] := by
          intro he; exact hmech (by rw [hm, he])
        show (if m = ["QUEST"] then "Quest" else capitalize t) = capitalize t
        rw [if_neg hne]
    rw [hq, hcap]
    have hdk : dkType c "Hero" = Except.error (PErr.missingField "set") := by
      unfold dkType
      rw [if_pos rfl, hset]
    rw [hdk]
  · intro c e h
    unfold parse at h
    rcases hc : c.cost with _ | cost
    · simp only [hc] at h
      simp only [Except.error.injEq] at h
      rw [← h]
      simp
    simp only [hc] at h
    rcases hn : c.name with _ | name
    · simp only [hn] at h
      simp only [Except.error.injEq] at h
      rw [← h]
      simp
    simp only [hn] at h
    rcases hr : c.rarity with _ | r0
    · simp only [hr] at h
      simp only [Except.error.injEq] at h
      rw [← h]
      simp
    simp only [hr] at h
    have hsome : (cardDefaulted c).set ≠ none := by
      rw [cardDefaulted_set]
      simp
    exact parseRest_error_kind hsome h

theorem C10_counterexample :
    capitalize "HERO" = "Hero" ∧ cardQuestHero.set = none ∧
    normalize_type cardQuestHero = Except.ok ("Quest", none) := ⟨rfl, rfl, rfl⟩

theorem C10_witness :
    normalize_type cardHeroNoSet = Except.error (PErr.missingField "set") :=
  C10_hero_missing_set.1 cardHeroNoSet "HERO" rfl rfl rfl (by simp [cardHeroNoSet])

/-- C3 (corrected): a successful Type/Subtype resolution gives type "Quest"
when the mechanics list is exactly `["QUEST"]`; with mechanics exactly
`["SECRET"]` the subtype becomes "Secret" and the type is the capitalized
source type except that the Death Knight special case (capitalized type
"Hero" in set ICECROWN) may still change it — the unconditional "type
unchanged" reading is refuted by `C3_counterexample`; and a mechanics list
containing quest or secret alongside other tags triggers neither override
(the resolver behaves as with an empty mechanics list). -/
theorem C3_type_subtype_overrides :
    (∀ (c : Card) (ty : String) (sub : Option String),
      c.mechanics = some ["QUEST"] →
      normalize_type c = Except.ok (ty, sub) → ty = "Quest") ∧
    (∀ (c : Card) (t ty : String) (sub : Option String),
      c.type = some t → c.mechanics = some ["SECRET"] →
      normalize_type c = Except.ok (ty, sub) →
      sub = some "Secret" ∧
      ty = (if capitalize t = "Hero" ∧ c.set = some "ICECROWN"
        then "Death Knight" else capitalize t)) ∧
    (∀ (c : Card) (m : List String), c.mechanics = some m →
      ("QUEST" ∈ m ∨ "SECRET" ∈ m) → 2 ≤ m.length →
      normalize_type c = normalize_type { c with mechanics := some [] }) := by
  refine ⟨?_, ?_, ?_⟩
  · intro c ty sub hm h
    unfold normalize_type at h
    rcases hty : c.type with _ | ty0
    · simp only [hty] at h; simp at h
    simp only [hty] at h
    have hq : questType c (capitalize ty0) = "Quest" := by
      unfold questType
      simp only [hm]
      simp
    rw [hq] at h
    have hdk : dkType c "Quest" = Except.ok "Quest" := rfl
    rw [hdk] at h
    rcases hg : groupSub c (secretSub c (c.race.map capitalize)) with e | st
    · simp only [hg] at h; simp at h
    simp only [hg] at h
    simp only [Except.ok.injEq, Prod.mk.injEq] at h
    exact h.1.symm
  · intro c t ty sub hty hm h
    unfold normalize_type at h
    simp only [hty] at h
    have hq : questType c (capitalize t) = capitalize t := by
      unfold questType
      simp only [hm]
      rw [if_neg (by simp)]
    have hsec : secretSub c (c.race.map capitalize) = some "Secret" := by
      unfold secretSub
      simp only [hm]
      simp
    rw [hq, hsec] at h
    have hgs : groupSub c (some "Secret") = Except.ok (some "Secret") := by
      unfold groupSub
      rcases hmg : c.multiClassGroup with _ | g
      · rfl
      · simp
    rw [hgs] at h
    rcases hdk : dkType c (capitalize t) with e | ctype
    · simp only [hdk] at h; simp at h
    simp only [hdk] at h
    simp only [Except.ok.injEq, Prod.mk.injEq] at h
    obtain ⟨h1, h2⟩ := h
    have hms : mechSub (some "Secret") = some "Secret" := rfl
    rw [hms] at h2
    refine ⟨h2.symm, ?_⟩
    unfold dkType at hdk
    by_cases hh : capitalize t = "Hero"
    · rw [if_pos hh] at hdk
      rcases hcs : c.set with _ | s
      · simp only [hcs] at hdk; simp at hdk
      · simp only [hcs] at hdk
        simp only [Except.ok.injEq] at hdk
        by_cases hsI : s = "ICECROWN"
        · rw [if_pos hsI] at hdk
          rw [← h1, ← hdk, if_pos ⟨hh, by rw [hsI]⟩]
        · rw [if_neg hsI] at hdk
          rw [← h1, ← hdk,
            if_neg (by rintro ⟨-, h2'⟩; rw [Option.some.injEq] at h2'; exact hsI h2')]
    · rw [if_neg hh] at hdk
      simp only [Except.ok.injEq] at hdk
      rw [← h1, ← hdk, if_neg (fun hcon => hh hcon.1)]
  · intro c m hm hmem hlen
    have hq : m ≠ ["QUEST"] := by
      intro he; rw [he] at hlen; simp at hlen
    have hs : m ≠ ["SECRET"] := by
      intro he; rw [he] at hlen; simp at hlen
    unfold normalize_type
    rcases hty : c.type with _ | ty
    · rfl
    dsimp only
    rw [← hty]
    have h1 : questType c (capitalize ty) =
        questType { c with mechanics := some [] } (capitalize ty) := by
      unfold questType
      simp only [hm]
      rw [if_neg hq]
      rfl
    have h2 : secretSub c (c.race.map capitalize) =
        secretSub { c with mechanics := some [] } (c.race.map capitalize) := by
      unfold secretSub
      simp only [hm]
      rw [if_neg hs]
      rfl
    rw [← h1, ← h2]
    rfl

theorem C3_counterexample :
    normalize_type cardSecretHero = Except.ok ("Death Knight", some "Secret") ∧
    capitalize "HERO" = "Hero" ∧ ("Death Knight" : String) ≠ "Hero" :=
  ⟨rfl, rfl, by decide⟩

theorem C3_witness :
    ("Quest" : String) = "Quest" ∧
    (some "Secret" = some "Secret" ∧
      ("Spell" : String) =
        (if capitalize "SPELL" = "Hero" ∧ cardSecret.set = some "ICECROWN"
          then "Death Knight" else capitalize "SPELL")) ∧
    normalize_type cardMixed = normalize_type { cardMixed with mechanics := some [] } := by
  refine ⟨?_, ?_, ?_⟩
  · exact C3_type_subtype_overrides.1 cardQuest "Quest" none rfl rfl
  · exact C3_type_subtype_overrides.2.1 cardSecret "SPELL" "Spell" (some "Secret")
      rfl rfl rfl
  · exact C3_type_subtype_overrides.2.2 cardMixed ["SECRET", "TAUNT"] rfl
      (Or.inr (by decide)) (by decide)

/-- C7 (corrected): `parse` returns its input record unchanged except when
the record has cost, name and rarity fields but no set field — then the
fallback set identifier `"HOF"` is written into the record (in-place
mutation).  The claim that the input is never modified is refuted by
`C7_counterexample`. -/
theorem C7_parse_mutation :
    ∀ c : Card, (parse c).snd =
      if c.cost ≠ none ∧ c.name ≠ none ∧ c.rarity ≠ none ∧ c.set = none
      then { c with set := some "HOF" } else c := by
  intro c
  unfold parse
  rcases hc : c.cost with _ | cost
  · dsimp only
    rw [if_neg (by rintro ⟨h1, -, -, -⟩; exact h1 rfl)]
  rcases hn : c.name with _ | name
  · dsimp only
    rw [if_neg (by rintro ⟨-, h1, -, -⟩; exact h1 rfl)]
  rcases hr : c.rarity with _ | r0
  · dsimp only
    rw [if_neg (by rintro ⟨-, -, h1, -⟩; exact h1 rfl)]
  dsimp only
  unfold cardDefaulted
  by_cases hs : c.set = none
  · rw [if_pos hs, if_pos ⟨by simp, by simp, by simp, hs⟩, hc, hn, hr]
  · rw [if_neg hs, if_neg (by rintro ⟨-, -, -, h1⟩; exact hs h1)]

/-- C7 (counterexample): `parse` does modify a record that lacks a set
field. -/
theorem C7_counterexample : (parse cardNoSet).snd ≠ cardNoSet := by decide

theorem listLtB_asymm : ∀ a b : List Char, listLtB a b = true → listLtB b a = false := by
  intro a
  induction a with
  | nil =>
    intro b h
    cases b with
    | nil => simp [listLtB] at h
    | cons y ys => simp [listLtB]
  | cons x xs ih =>
    intro b h
    cases b with
    | nil => simp [listLtB] at h
    | cons y ys =>
      unfold listLtB at h ⊢
      by_cases hxy : x < y
      · rw [if_neg (lt_asymm hxy), if_pos hxy]
      · rw [if_neg hxy] at h
        by_cases hyx : y < x
        · rw [if_pos hyx] at h; exact absurd h (by simp)
        · rw [if_neg hyx] at h
          rw [if_neg hyx, if_neg hxy]
          exact ih ys h

theorem listLtB_conn :
    ∀ a b : List Char, listLtB a b = false → listLtB b a = false → a = b := by
  intro a
  induction a with
  | nil =>
    intro b h1 _
    cases b with
    | nil => rfl
    | cons y ys => simp [listLtB] at h1
  | cons x xs ih =>
    intro b h1 h2
    cases b with
    | nil => simp [listLtB] at h2
    | cons y ys =>
      unfold listLtB at h1 h2
      by_cases hxy : x < y
      · rw [if_pos hxy] at h1; exact absurd h1 (by simp)
      · by_cases hyx : y < x
        · rw [if_pos hyx] at h2; exact absurd h2 (by simp)
        · rw [if_neg hxy, if_neg hyx] at h1
          rw [if_neg hyx, if_neg hxy] at h2
          have hx : x = y := le_antisymm (not_lt.mp hyx) (not_lt.mp hxy)
          rw [hx, ih ys h1 h2]

theorem listLtB_trans :
    ∀ a b c : List Char, listLtB a b = true → listLtB b c = true →
      listLtB a c = true := by
  intro a
  induction a with
  | nil =>
    intro b c h1 h2
    cases b with
    | nil => simp [listLtB] at h1
    | cons y ys =>
      cases c with
      | nil => simp [listLtB] at h2
      | cons z zs => simp [listLtB]
  | cons x xs ih =>
    intro b c h1 h2
    cases b with
    | nil => simp [listLtB] at h1
    | cons y ys =>
      cases c with
      | nil => simp [listLtB] at h2
      | cons z zs =>
        unfold listLtB at h1 h2 ⊢
        by_cases hxy : x < y
        · by_cases hyz : y < z
          · rw [if_pos (lt_trans hxy hyz)]
          · rw [if_neg hyz] at h2
            by_cases hzy : z < y
            · rw [if_pos hzy] at h2; exact absurd h2 (by simp)
            · have hyz' : y = z := le_antisymm (not_lt.mp hzy) (not_lt.mp hyz)
              rw [if_pos (by rw [← hyz']; exact hxy)]
        · rw [if_neg hxy] at h1
          by_cases hyx : y < x
          · rw [if_pos hyx] at h1; exact absurd h1 (by simp)
          · rw [if_neg hyx] at h1
            have hx : x = y := le_antisymm (not_lt.mp hyx) (not_lt.mp hxy)
            by_cases hyz : y < z
            · rw [if_pos (by rw [hx]; exact hyz)]
            · rw [if_neg hyz] at h2
              by_cases hzy : z < y
              · rw [if_pos hzy] at h2; exact absurd h2 (by simp)
              · rw [if_neg hzy] at h2
                have h3 : ¬ x < z := by rw [hx]; exact hyz
                have h4 : ¬ z < x := by rw [hx]; exact hzy
                rw [if_neg h3, if_neg h4]
                exact ih ys zs h1 h2

instance : IsTotal String fun a b => strLeB a b = true := by
  constructor
  intro a b
  unfold strLeB
  by_cases h : listLtB b.data a.data = true
  · right
    rw [listLtB_asymm _ _ h]
    rfl
  · left
    rw [Bool.not_eq_true] at h
    rw [h]
    rfl

instance : IsTrans String fun a b => strLeB a b = true := by
  constructor
  intro a b c hab hbc
  unfold strLeB at hab hbc ⊢
  rw [Bool.not_eq_true'] at hab hbc ⊢
  by_contra hca
  rw [Bool.not_eq_false] at hca
  by_cases hab' : listLtB a.data b.data = true
  · have hcb := listLtB_trans _ _ _ hca hab'
    rw [hcb] at hbc
    exact absurd hbc (by simp)
  · rw [Bool.not_eq_true] at hab'
    have hEq : a.data = b.data := listLtB_conn _ _ hab' hab
    rw [hEq] at hca
    rw [hca] at hbc
    exact absurd hbc (by simp)

theorem string_data_inj {a b : String} (h : a.data = b.data) : a = b := by
  cases a
  cases b
  simp only at h
  rw [h]

theorem sorted_strict_insertionSort_dedup (l : List String) :
    List.Sorted (fun a b => strLtB a b = true)
      (List.insertionSort (fun a b => strLeB a b) l.dedup) ∧
    (List.insertionSort (fun a b => strLeB a b) l.dedup).Nodup := by
  have hsort := List.sorted_insertionSort (fun a b => strLeB a b = true) l.dedup
  have hperm := List.perm_insertionSort (fun a b => strLeB a b = true) l.dedup
  have hnodup : (List.insertionSort (fun a b => strLeB a b = true) l.dedup).Nodup :=
    hperm.nodup_iff.mpr (List.nodup_dedup l)
  refine ⟨(List.Pairwise.and hsort hnodup).imp ?_, hnodup⟩
  rintro a b ⟨h1, h2⟩
  unfold strLeB at h1
  rw [Bool.not_eq_true'] at h1
  unfold strLtB
  by_contra h3
  rw [Bool.not_eq_true] at h3
  exact h2 (string_data_inj (listLtB_conn _ _ h3 h1))

theorem mem_insertionSort_dedup (l : List String) (x : String) :
    x ∈ List.insertionSort (fun a b => strLeB a b) l.dedup ↔ x ∈ l := by
  rw [(List.perm_insertionSort (fun a b => strLeB a b = true) l.dedup).mem_iff,
    List.mem_dedup]

/-- C2 (confirmed): the Keyword Extractor returns a strictly sorted (in the
code-point order Python `sorted` uses) and duplicate-free list containing
exactly the display labels of mechanics tags found in the Keyword Registry
plus referencedTags tags found there with the registry flag true; a record
with `referencedTags = ["SECRET"]` and empty mechanics yields no keywords at
all. -/
theorem C2_keywords_sorted_exact :
    (∀ c : Card,
      List.Sorted (fun a b => strLtB a b = true) (normalize_keywords c) ∧
      (normalize_keywords c).Nodup ∧
      (∀ x : String, x ∈ normalize_keywords c ↔
        ((∃ m ∈ c.mechanics.getD [], ∃ fl, List.lookup m KEYWORDS = some (x, fl)) ∨
         (∃ tg ∈ c.referencedTags.getD [],
            List.lookup tg KEYWORDS = some (x, true))))) ∧
    normalize_keywords cardRefSecret = [] := by
  constructor
  · intro c
    refine ⟨?_, ?_, ?_⟩
    · unfold normalize_keywords
      exact (sorted_strict_insertionSort_dedup _).1
    · unfold normalize_keywords
      exact (sorted_strict_insertionSort_dedup _).2
    · intro x
      unfold normalize_keywords
      rw [mem_insertionSort_dedup, List.mem_append, List.mem_filterMap,
        List.mem_filterMap]
      refine or_congr (exists_congr fun m => and_congr_right fun _ => ?_)
        (exists_congr fun tg => and_congr_right fun _ => ?_)
      · rw [Option.map_eq_some']
        constructor
        · rintro ⟨⟨lbl, fl⟩, hl, he⟩
          refine ⟨fl, ?_⟩
          rw [hl]
          simp only at he
          rw [he]
        · rintro ⟨fl, hl⟩
          exact ⟨(x, fl), hl, rfl⟩
      · rcases hlk : List.lookup tg KEYWORDS with _ | ⟨lbl, fl⟩
        · simp
        · cases fl
          · simp
          · simp
  · rfl

theorem C2_witness :
    normalize_keywords cardKW = ["Divine Shield", "Recruit", "Taunt"] ∧
    List.Sorted (fun a b => strLtB a b = true) (normalize_keywords cardKW) :=
  ⟨by decide, (C2_keywords_sorted_exact.1 cardKW).1⟩
